import Mathlib

/-!
# Volunteer ledger and reward-unlock engine: a shallow embedding

This file is a shallow embedding, in Lean, of the volunteer-hours ledger of
the repository (`util/hours.py`) together with the batch orchestrator
`add_hours_with_notifications`.  Hour quantities are modelled as rationals
(the Python code handles `int`/`float` values; all arithmetic used by the
program is exact decimal arithmetic on small quantities).  Month keys
`"YYYY-MM"` produced by `strftime` are modelled as `(year, month)` pairs;
lexicographic order on the pairs coincides with the lexicographic string
order on the zero-padded `"YYYY-MM"` form that `sorted()` uses.  Python
dictionaries are modelled as association lists (first occurrence wins on
lookup, update-in-place on assignment, append on fresh insert), matching
dict semantics on the duplicate-free lists the program builds.  Fallible
operations (a `KeyError` in Python) return `Option`.
-/

/-- A `"YYYY-MM"` month key, as parsed by `datetime.strptime(month_str, "%Y-%m")`. -/
structure Ym where
  year : Nat
  month : Nat
deriving DecidableEq, Repr

/-- Order on month keys: the order `sorted()` gives the zero-padded
`"YYYY-MM"` strings. -/
def ymLe (a b : Ym) : Prop :=
  a.year < b.year ∨ (a.year = b.year ∧ a.month ≤ b.month)

instance : DecidableRel ymLe := fun a b => by
  unfold ymLe; exact inferInstance

/-- A per-volunteer ledger record: `{"name": ..., "months": {...}, "debt": ...}`.
The `debt` key is read with `.get("debt", 0)` in the source, so an absent key
is identified with the value `0`. -/
structure Record where
  name : String
  months : List (Ym × ℚ)
  debt : ℚ
deriving DecidableEq, Repr

/-- The `volunteer_hours` dictionary: TidyHQ id → record. -/
abbrev Ledger := List (String × Record)

/-- `months.get(k, 0)` — dictionary lookup with default `0`. -/
def monthsGet : List (Ym × ℚ) → Ym → ℚ
  | [], _ => 0
  | (k, v) :: rest, p => if k = p then v else monthsGet rest p

/-- `months[k] = 0` if absent, then `months[k] += d`
(`add_hours`, util/hours.py lines 152–155): update in place when the key is
present, append `(k, 0 + d)` otherwise. -/
def monthsAdd : List (Ym × ℚ) → Ym → ℚ → List (Ym × ℚ)
  | [], p, d => [(p, d)]
  | (k, v) :: rest, p, d =>
      if k = p then (k, v + d) :: rest else (k, v) :: monthsAdd rest p d

/-- The running total of `for monthly_hours in months.values(): total += ...`. -/
def monthsTotal : List (Ym × ℚ) → ℚ
  | [] => 0
  | kv :: rest => kv.2 + monthsTotal rest

/-- `volunteer_hours[tid]` as an `Option` (a missing key is a `KeyError`). -/
def lookupRecord : Ledger → String → Option Record
  | [], _ => none
  | (k, r) :: rest, tid => if k = tid then some r else lookupRecord rest tid

/-- `volunteer_hours[tid] = r` — dictionary assignment. -/
def setRecord : Ledger → String → Record → Ledger
  | [], tid, r => [(tid, r)]
  | (k, v) :: rest, tid, r =>
      if k = tid then (k, r) :: rest else (k, v) :: setRecord rest tid r

/-- The member-directory cache (the `tidyhq` module is an external
collaborator, §6 of the spec): the Slack→TidyHQ mapping used by
`tidyhq.map_slack_to_tidyhq` and the contact table used by
`tidyhq.get_contact` / `tidyhq.format_contact`. -/
structure Directory where
  slackMap : List (String × String)
  contacts : List (String × String)
deriving DecidableEq, Repr

/-- `tidyhq.map_slack_to_tidyhq(tidyhq_cache, config, slack_id)`. -/
def map_slack_to_tidyhq (d : Directory) (slackId : String) : Option String :=
  d.slackMap.lookup slackId

/-- `tidyhq.get_contact(contact_id, tidyhq_cache)` followed by
`tidyhq.format_contact`, collapsed to the formatted name. -/
def get_contact (d : Directory) (tid : String) : Option String :=
  d.contacts.lookup tid

/-- `generate_new` (util/hours.py lines 15–41): create a fresh zero-valued
record for an id, if the id is unknown and the directory resolves it;
otherwise return the ledger unchanged. -/
def generate_new (tid : String) (vh : Ledger) (dir : Directory) : Ledger :=
  if (lookupRecord vh tid).isSome then vh
  else
    match get_contact dir tid with
    | none => vh
    | some nm => vh ++ [(tid, { name := nm, months := [], debt := 0 })]

/-- `get_total` (util/hours.py lines 44–57). -/
def get_total (tid : String) (vh : Ledger) : ℚ :=
  match lookupRecord vh tid with
  | none => 0
  | some r => monthsTotal r.months

/-- `get_specific_month` (util/hours.py lines 60–72). -/
def get_specific_month (tid : String) (vh : Ledger) (period : Ym) : ℚ :=
  match lookupRecord vh tid with
  | none => 0
  | some r => monthsGet r.months period

/-- `get_debt` (util/hours.py lines 113–127): `max(debt - total, 0)`. -/
def get_debt (tid : String) (vh : Ledger) : ℚ :=
  match lookupRecord vh tid with
  | none => 0
  | some r => max (r.debt - get_total tid vh) 0

/-- `add_hours` (util/hours.py lines 130–161).  After `generate_new`, the
Python code indexes `volunteer_hours[tidyhq_id]` unconditionally; when the
id is still absent (unknown id whose contact the directory cannot resolve)
that raises `KeyError`, modelled as `none`. -/
def add_hours (tid : String) (vh : Ledger) (hours_volunteered : ℚ)
    (volunteer_date : Ym) (dir : Directory) (debt : Bool) : Option Ledger :=
  match lookupRecord (generate_new tid vh dir) tid with
  | none => none
  | some r =>
      if debt then
        some (setRecord (generate_new tid vh dir) tid
          { r with debt := r.debt + hours_volunteered })
      else
        some (setRecord (generate_new tid vh dir) tid
          { r with months := monthsAdd r.months volunteer_date hours_volunteered })

/-- The reward-crossing test of `add_hours_with_notifications`
(util/hours.py lines 234–235 and 289–290): the loop
`for reward in table: if pre < reward <= pre + delta: emit reward`
over a threshold table, preserving table order. -/
def crossings (thresholds : List ℚ) (pre delta : ℚ) : List ℚ :=
  thresholds.filter fun t => decide (pre < t) && decide (t ≤ pre + delta)

-- Basic lemmas about the ledger dictionary operations.

theorem lookupRecord_setRecord (vh : Ledger) (tid : String) (r : Record) :
    lookupRecord (setRecord vh tid r) tid = some r := by
  induction vh with
  | nil => simp [setRecord, lookupRecord]
  | cons e rest ih =>
      obtain ⟨k, v⟩ := e
      by_cases h : k = tid
      · simp [setRecord, lookupRecord, h]
      · simp [setRecord, lookupRecord, h, ih]

theorem lookupRecord_append_of_none {vh : Ledger} {tid : String}
    (h : lookupRecord vh tid = none) (l : Ledger) :
    lookupRecord (vh ++ l) tid = lookupRecord l tid := by
  induction vh with
  | nil => simp
  | cons e rest ih =>
      obtain ⟨k, v⟩ := e
      by_cases hk : k = tid
      · simp [lookupRecord, hk] at h
      · simp [lookupRecord, hk] at h ⊢
        exact ih h

theorem monthsTotal_monthsAdd (m : List (Ym × ℚ)) (p : Ym) (d : ℚ) :
    monthsTotal (monthsAdd m p d) = monthsTotal m + d := by
  induction m with
  | nil => simp [monthsAdd, monthsTotal]
  | cons kv rest ih =>
      obtain ⟨k, v⟩ := kv
      by_cases h : k = p
      · simp [monthsAdd, monthsTotal, h]; ring
      · simp [monthsAdd, monthsTotal, h, ih]; ring

/-- C1: the crossing detector emits exactly the thresholds `t` with
`pre < t ≤ pre + delta`, preserving the (ascending) table order; with
thresholds `{5, 10, 20}`: `pre=4, delta=1` yields `[5]`; `pre=4, delta=20`
yields `[5, 10, 20]`; `pre=10, delta=0` yields `[]`. -/
theorem crossings_exact (thresholds : List ℚ) (pre delta : ℚ) :
    (∀ t : ℚ, t ∈ crossings thresholds pre delta ↔
        t ∈ thresholds ∧ pre < t ∧ t ≤ pre + delta)
    ∧ (thresholds.Sorted (· < ·) →
        (crossings thresholds pre delta).Sorted (· < ·))
    ∧ crossings [5, 10, 20] 4 1 = [5]
    ∧ crossings [5, 10, 20] 4 20 = [5, 10, 20]
    ∧ crossings [5, 10, 20] 10 0 = [] := by
  refine ⟨?_, ?_, ?_, ?_, ?_⟩
  · intro t
    simp [crossings, List.mem_filter, and_assoc]
  · intro hs
    exact hs.filter _
  · norm_num [crossings, List.filter_cons]
  · norm_num [crossings, List.filter_cons]
  · norm_num [crossings, List.filter_cons]

/-- Witness for `crossings_exact`: the sortedness hypothesis discharged on
the concrete table `[5, 10, 20]`. -/
theorem crossings_exact_witness :
    (([5, 10, 20] : List ℚ).Sorted (· < ·))
    ∧ (crossings [5, 10, 20] 4 1).Sorted (· < ·) :=
  ⟨by norm_num [List.sorted_cons], (crossings_exact [5, 10, 20] 4 1).2.1
    (by norm_num [List.sorted_cons])⟩

/-- C5: `get_debt` is `max(debt − total, 0)`: it is never negative, and it
is exactly `0` as soon as the cumulative total reaches the stored debt. -/
theorem get_debt_floor (tid : String) (vh : Ledger) :
    0 ≤ get_debt tid vh
    ∧ (∀ r : Record, lookupRecord vh tid = some r →
        get_debt tid vh = max (r.debt - get_total tid vh) 0
        ∧ (r.debt ≤ get_total tid vh → get_debt tid vh = 0)) := by
  constructor
  · unfold get_debt
    match lookupRecord vh tid with
    | none => exact le_refl 0
    | some r => exact le_max_right _ _
  · intro r hr
    have hd : get_debt tid vh = max (r.debt - get_total tid vh) 0 := by
      unfold get_debt
      rw [hr]
    refine ⟨hd, fun hle => ?_⟩
    rw [hd]
    exact max_eq_right (by linarith)

/-- Witness for `get_debt_floor`: a record with debt 3 and 5 total hours has
effective debt exactly 0. -/
theorem get_debt_floor_witness :
    get_debt "1" [("1", ⟨"x", [(⟨2025, 9⟩, 5)], 3⟩)]
      = max ((3 : ℚ) - get_total "1" [("1", ⟨"x", [(⟨2025, 9⟩, 5)], 3⟩)]) 0
    ∧ get_debt "1" [("1", ⟨"x", [(⟨2025, 9⟩, 5)], 3⟩)] = 0 := by
  have h := (get_debt_floor "1" [("1", ⟨"x", [(⟨2025, 9⟩, 5)], 3⟩)]).2
    ⟨"x", [(⟨2025, 9⟩, 5)], 3⟩ (by simp [lookupRecord])
  exact ⟨h.1, h.2 (by norm_num [get_total, lookupRecord, monthsTotal])⟩

-- The record view of an identity: its months mapping and its stored debt
-- (the empty mapping / `0` for an identity without a record).

/-- `volunteer_hours[tid]["months"]`, the empty mapping for an unknown id. -/
def monthsOf (tid : String) (vh : Ledger) : List (Ym × ℚ) :=
  match lookupRecord vh tid with
  | none => []
  | some r => r.months

/-- `volunteer_hours[tid].get("debt", 0)`, `0` for an unknown id. -/
def debtOf (tid : String) (vh : Ledger) : ℚ :=
  match lookupRecord vh tid with
  | none => 0
  | some r => r.debt

theorem generate_new_of_isSome {tid : String} {vh : Ledger} (dir : Directory)
    (h : (lookupRecord vh tid).isSome) : generate_new tid vh dir = vh := by
  unfold generate_new
  simp [h]

theorem mem_setRecord {e : String × Record} :
    ∀ {vh : Ledger} {tid : String} {r : Record},
      e ∈ setRecord vh tid r → e ∈ vh ∨ e = (tid, r) := by
  intro vh
  induction vh with
  | nil =>
      intro tid r h
      simp [setRecord] at h
      exact Or.inr h
  | cons f rest ih =>
      intro tid r h
      obtain ⟨k, v⟩ := f
      by_cases hk : k = tid
      · simp [setRecord, hk] at h
        rcases h with h | h
        · exact Or.inr (by simp [h, hk])
        · exact Or.inl (by simp [h])
      · simp [setRecord, hk] at h
        rcases h with h | h
        · exact Or.inl (by simp [h])
        · rcases ih h with h' | h'
          · exact Or.inl (by simp [h'])
          · exact Or.inr h'

theorem lookupRecord_mem : ∀ {vh : Ledger} {tid : String} {r : Record},
    lookupRecord vh tid = some r → (tid, r) ∈ vh := by
  intro vh
  induction vh with
  | nil => intro tid r h; simp [lookupRecord] at h
  | cons f rest ih =>
      intro tid r h
      obtain ⟨k, v⟩ := f
      by_cases hk : k = tid
      · simp [lookupRecord, hk] at h
        simp [hk, h]
      · simp [lookupRecord, hk] at h
        simp [ih h]

theorem mem_generate_new {e : String × Record} {tid : String} {vh : Ledger}
    {dir : Directory} (h : e ∈ generate_new tid vh dir) :
    e ∈ vh ∨ e.2.months = [] := by
  unfold generate_new at h
  by_cases hs : (lookupRecord vh tid).isSome
  · simp [hs] at h
    exact Or.inl h
  · simp [hs] at h
    cases hc : get_contact dir tid with
    | none => rw [hc] at h; exact Or.inl h
    | some nm =>
        rw [hc] at h
        rcases List.mem_append.mp h with h' | h'
        · exact Or.inl h'
        · simp at h'
          exact Or.inr (by simp [h'])

theorem monthsAdd_nonneg {m : List (Ym × ℚ)} {p : Ym} {d : ℚ}
    (hm : ∀ kv ∈ m, 0 ≤ kv.2) (hd : 0 ≤ d) :
    ∀ kv ∈ monthsAdd m p d, 0 ≤ kv.2 := by
  induction m with
  | nil =>
      intro kv hkv
      simp [monthsAdd] at hkv
      simp [hkv, hd]
  | cons f rest ih =>
      obtain ⟨k, v⟩ := f
      intro kv hkv
      by_cases hk : k = p
      · simp [monthsAdd, hk] at hkv
        rcases hkv with hkv | hkv
        · have hv : 0 ≤ v := hm (k, v) (by simp)
          simp [hkv]
          linarith
        · exact hm kv (by simp [hkv])
      · simp [monthsAdd, hk] at hkv
        rcases hkv with hkv | hkv
        · exact hm kv (by simp [hkv])
        · exact ih (fun kv' hkv' => hm kv' (by simp [hkv'])) kv hkv

/-- C4 (amended form not needed — claim holds): additivity of `add_hours`
with the debt flag false: the cumulative total after the operation is the
total before plus the delta, whether or not the period key existed. -/
theorem add_hours_additivity (tid : String) (vh : Ledger) (d : ℚ) (p : Ym)
    (dir : Directory) (vh' : Ledger)
    (h : add_hours tid vh d p dir false = some vh') :
    get_total tid vh' = get_total tid vh + d := by
  unfold add_hours at h
  cases hvl : lookupRecord vh tid with
  | some r =>
      rw [generate_new_of_isSome dir (by simp [hvl])] at h
      rw [hvl] at h
      simp at h
      subst h
      unfold get_total
      rw [lookupRecord_setRecord, hvl]
      exact monthsTotal_monthsAdd r.months p d
  | none =>
      unfold generate_new at h
      simp [hvl] at h
      cases hc : get_contact dir tid with
      | none =>
          rw [hc] at h
          rw [hvl] at h
          simp at h
      | some nm =>
          rw [hc] at h
          rw [lookupRecord_append_of_none hvl] at h
          simp [lookupRecord] at h
          subst h
          unfold get_total
          rw [lookupRecord_setRecord, hvl]
          simp [monthsAdd, monthsTotal]

/-- Witness for `add_hours_additivity`: adding 2 hours to a fresh month. -/
theorem add_hours_additivity_witness :
    get_total "1" [("1", ⟨"A", [(⟨2025, 9⟩, (2 : ℚ))], 0⟩)]
      = get_total "1" [("1", ⟨"A", [], 0⟩)] + 2 :=
  add_hours_additivity "1" [("1", ⟨"A", [], 0⟩)] 2 ⟨2025, 9⟩ ⟨[], []⟩
    [("1", ⟨"A", [(⟨2025, 9⟩, (2 : ℚ))], 0⟩)] rfl

/-- C2 fails on the code: `add_hours` does not clamp; a delta of `-1`
applied with the debt flag false to a record with no stored hours leaves
the stored monthly value `-1 < 0`. -/
theorem months_nonneg_counterexample :
    (add_hours "1" [("1", ⟨"x", [], 0⟩)] (-1) ⟨2025, 1⟩ ⟨[], []⟩ false).map
        (fun vh => (monthsOf "1" vh).map Prod.snd) = some [(-1 : ℚ)]
    ∧ ¬ (0 : ℚ) ≤ (-1 : ℚ) :=
  ⟨rfl, by norm_num⟩

/-- C2 amended: for nonnegative deltas applied with the debt flag false,
`add_hours` preserves nonnegativity of every stored monthly value (the code
performs a bare `+=` with no clamping, so the guarantee needs `0 ≤ d`). -/
theorem add_hours_months_nonneg (tid : String) (vh : Ledger) (d : ℚ) (p : Ym)
    (dir : Directory) (vh' : Ledger) (hd : 0 ≤ d)
    (hvh : ∀ e ∈ vh, ∀ kv ∈ e.2.months, 0 ≤ kv.2)
    (h : add_hours tid vh d p dir false = some vh') :
    ∀ e ∈ vh', ∀ kv ∈ e.2.months, 0 ≤ kv.2 := by
  have hvh1 : ∀ e ∈ generate_new tid vh dir, ∀ kv ∈ e.2.months, 0 ≤ kv.2 := by
    intro e he
    rcases mem_generate_new he with h' | h'
    · exact hvh e h'
    · rw [h']
      intro kv hkv
      simp at hkv
  unfold add_hours at h
  cases hvl : lookupRecord (generate_new tid vh dir) tid with
  | none => rw [hvl] at h; simp at h
  | some r =>
      rw [hvl] at h
      simp at h
      subst h
      intro e he
      rcases mem_setRecord he with h' | h'
      · exact hvh1 e h'
      · rw [h']
        exact monthsAdd_nonneg (hvh1 (tid, r) (lookupRecord_mem hvl)) hd

/-- Witness for `add_hours_months_nonneg`: a concrete nonnegative delta. -/
theorem add_hours_months_nonneg_witness :
    (0 : ℚ) ≤ ((⟨2025, 9⟩, (2 : ℚ)) : Ym × ℚ).2 :=
  add_hours_months_nonneg "1" [("1", ⟨"A", [], 0⟩)] 2 ⟨2025, 9⟩ ⟨[], []⟩
    [("1", ⟨"A", [(⟨2025, 9⟩, (2 : ℚ))], 0⟩)] (by norm_num) (by simp) rfl
    ("1", ⟨"A", [(⟨2025, 9⟩, (2 : ℚ))], 0⟩) (by simp)
    (⟨2025, 9⟩, (2 : ℚ)) (by simp)

-- Consecutive-month streaks (`get_hour_streaks`, util/hours.py lines 576–620,
-- and `get_volunteer_badge_streaks`, lines 623–670).

/-- The calendar-adjacency test of the streak loops (lines 592–599):
same year and next month, or January following December. -/
def monthAdjacent (prev cur : Ym) : Bool :=
  (cur.year == prev.year && cur.month == prev.month + 1)
  || (cur.year == prev.year + 1 && cur.month == 1 && prev.month == 12)

/-- The loop state of the streak computation: `longest_streak`,
`current_streak` and `previous_month`. -/
structure StreakState where
  longest : Nat
  current : Nat
  previous : Option Ym
deriving DecidableEq, Repr

/-- One iteration of the streak loop body (lines 587–612), parameterised by
the qualifying predicate `q` applied to a month key. -/
def streakStep (q : Ym → Bool) (s : StreakState) (k : Ym) : StreakState :=
  if q k then
    match s.previous with
    | none =>
        { longest := if 1 > s.longest then 1 else s.longest,
          current := 1, previous := some k }
    | some p =>
        if monthAdjacent p k then
          { longest := if s.current + 1 > s.longest then s.current + 1 else s.longest,
            current := s.current + 1, previous := some k }
        else
          { longest := if 1 > s.longest then 1 else s.longest,
            current := 1, previous := some k }
  else
    { longest := s.longest, current := 0, previous := none }

/-- The whole streak loop over the sorted month keys. -/
def streakWalk (q : Ym → Bool) (ks : List Ym) : StreakState :=
  ks.foldl (streakStep q) ⟨0, 0, none⟩

/-- `sorted(volunteer_data["months"].keys())`. -/
def sortedKeys (m : List (Ym × ℚ)) : List Ym :=
  List.insertionSort ymLe (m.map Prod.fst)

/-- Per-record body of `get_hour_streaks` (qualifying predicate: hours > 0);
returns `(longest_streak, current_streak)`. -/
def get_hour_streaks_record (r : Record) : Nat × Nat :=
  ((streakWalk (fun k => decide (0 < monthsGet r.months k)) (sortedKeys r.months)).longest,
   (streakWalk (fun k => decide (0 < monthsGet r.months k)) (sortedKeys r.months)).current)

/-- `get_hour_streaks`: the streak pair for every volunteer in the ledger. -/
def get_hour_streaks (vh : Ledger) : List (String × (Nat × Nat)) :=
  vh.map fun e => (e.1, get_hour_streaks_record e.2)

/-- Per-record body of `get_volunteer_badge_streaks` (qualifying predicate:
hours ≥ 10, line 638); returns `(longest_streak, current_streak)`. -/
def get_volunteer_badge_streaks_record (r : Record) : Nat × Nat :=
  ((streakWalk (fun k => decide (10 ≤ monthsGet r.months k)) (sortedKeys r.months)).longest,
   (streakWalk (fun k => decide (10 ≤ monthsGet r.months k)) (sortedKeys r.months)).current)

/-- `get_volunteer_badge_streaks` over the whole ledger. -/
def get_volunteer_badge_streaks (vh : Ledger) : List (String × (Nat × Nat)) :=
  vh.map fun e => (e.1, get_volunteer_badge_streaks_record e.2)

-- Specification-side streak functions, written by independent structural
-- recursion from the most recent month backwards (the argument is the
-- REVERSED sorted key list).

/-- Length of the consecutive qualifying run ending at the most recent
listed month (`0` if that month does not qualify): consecutive means
strict calendar adjacency, and a non-qualifying month breaks the run. -/
def revRun (q : Ym → Bool) : List Ym → Nat
  | [] => 0
  | k :: rest =>
      if q k then
        match rest with
        | [] => 1
        | p :: _ => if q p && monthAdjacent p k then revRun q rest + 1 else 1
      else 0

/-- Maximum, over every month in the history, of the length of the
consecutive qualifying run ending at that month. -/
def maxRunRev (q : Ym → Bool) : List Ym → Nat
  | [] => 0
  | k :: rest => max (revRun q (k :: rest)) (maxRunRev q rest)

/-- The most recent listed month, provided it qualifies. -/
def lastQualRev (q : Ym → Bool) : List Ym → Option Ym
  | [] => none
  | k :: _ => if q k then some k else none

/-- Spec reading, code behaviour: the run ending at the LAST month of the
sorted key list (`0` when that month does not qualify). -/
def runEndingAtLast (q : Ym → Bool) (ks : List Ym) : Nat :=
  revRun q ks.reverse

/-- Spec reading, claim wording: the run ending at the most recent
QUALIFYING month — trailing non-qualifying months are skipped first. -/
def runEndingAtLastQual (q : Ym → Bool) (ks : List Ym) : Nat :=
  revRun q (ks.reverse.dropWhile fun k => !q k)

/-- The longest streak over the whole history. -/
def longestRun (q : Ym → Bool) (ks : List Ym) : Nat :=
  maxRunRev q ks.reverse

theorem ite_gt_eq_max (a b : Nat) : (if a > b then a else b) = max a b := by
  split_ifs with h <;> omega

theorem streakStep_rev (q : Ym → Bool) (k : Ym) (r : List Ym) :
    streakStep q ⟨maxRunRev q r, revRun q r, lastQualRev q r⟩ k =
      ⟨maxRunRev q (k :: r), revRun q (k :: r), lastQualRev q (k :: r)⟩ := by
  cases hqk : q k with
  | false =>
      simp [streakStep, revRun, maxRunRev, lastQualRev, hqk]
  | true =>
      cases r with
      | nil =>
          simp [streakStep, revRun, maxRunRev, lastQualRev, hqk, ite_gt_eq_max]
      | cons p r' =>
          cases hqp : q p with
          | false =>
              simp [streakStep, revRun, maxRunRev, lastQualRev, hqk, hqp,
                ite_gt_eq_max]
              split_ifs <;> omega
          | true =>
              cases hadj : monthAdjacent p k with
              | false =>
                  simp [streakStep, revRun, maxRunRev, lastQualRev, hqk, hqp,
                    hadj, ite_gt_eq_max]
                  split_ifs <;> omega
              | true =>
                  simp [streakStep, revRun, maxRunRev, lastQualRev, hqk, hqp,
                    hadj, ite_gt_eq_max]
                  split_ifs <;> omega

theorem streakWalk_rev_spec (q : Ym → Bool) (rvs : List Ym) :
    streakWalk q rvs.reverse =
      ⟨maxRunRev q rvs, revRun q rvs, lastQualRev q rvs⟩ := by
  induction rvs with
  | nil => rfl
  | cons k r ih =>
      have h1 : (k :: r).reverse = r.reverse ++ [k] := by simp
      rw [h1]
      unfold streakWalk
      rw [List.foldl_append]
      have h2 : List.foldl (streakStep q) ⟨0, 0, none⟩ r.reverse
          = streakWalk q r.reverse := rfl
      rw [h2, ih]
      simp [streakStep_rev]

theorem streakWalk_spec (q : Ym → Bool) (ks : List Ym) :
    streakWalk q ks = ⟨maxRunRev q ks.reverse, revRun q ks.reverse,
      lastQualRev q ks.reverse⟩ := by
  have h := streakWalk_rev_spec q ks.reverse
  rwa [List.reverse_reverse] at h

/-- C3 fails on the code as worded: for months `{2025-09: 1, 2025-10: 0}`
the most recent QUALIFYING month is 2025-09 and the run ending there has
length 1, but the code's `current_streak` is 0 — a stored non-qualifying
month after the last qualifying one resets the running streak to 0 rather
than leaving the streak ending at the most recent qualifying month. -/
theorem current_streak_counterexample :
    (get_hour_streaks_record ⟨"x", [(⟨2025, 9⟩, 1), (⟨2025, 10⟩, 0)], 0⟩).2 = 0
    ∧ (sortedKeys [(⟨2025, 9⟩, (1 : ℚ)), (⟨2025, 10⟩, 0)]).filter
        (fun k => decide (0 < monthsGet [(⟨2025, 9⟩, (1 : ℚ)), (⟨2025, 10⟩, 0)] k))
        = [⟨2025, 9⟩]
    ∧ runEndingAtLastQual
        (fun k => decide (0 < monthsGet [(⟨2025, 9⟩, (1 : ℚ)), (⟨2025, 10⟩, 0)] k))
        (sortedKeys [(⟨2025, 9⟩, (1 : ℚ)), (⟨2025, 10⟩, 0)]) = 1 := by
  refine ⟨?_, ?_, ?_⟩ <;> decide

/-- C3 amended: the streak walk over the sorted month keys uses strict
calendar adjacency (December→January included), a non-qualifying or missing
month resets the running streak, `longest_streak` is the maximum qualifying
run over the whole history, and `current_streak` is the run ending at the
LAST stored month — `0` when that month does not qualify (it is NOT the run
ending at the most recent qualifying month when non-qualifying months are
stored after it).  The two examples of the claim hold as stated. -/
theorem hour_streaks_spec :
    (∀ vh : Ledger, get_hour_streaks vh = vh.map fun e =>
        (e.1,
         (longestRun (fun k => decide (0 < monthsGet e.2.months k)) (sortedKeys e.2.months),
          runEndingAtLast (fun k => decide (0 < monthsGet e.2.months k)) (sortedKeys e.2.months))))
    ∧ get_hour_streaks_record ⟨"a", [(⟨2025, 9⟩, 1), (⟨2025, 10⟩, 1), (⟨2025, 11⟩, 1)], 0⟩
        = (3, 3)
    ∧ get_hour_streaks_record ⟨"a", [(⟨2025, 9⟩, 1), (⟨2025, 10⟩, 0), (⟨2025, 11⟩, 1)], 0⟩
        = (1, 1) := by
  refine ⟨fun vh => ?_, by decide, by decide⟩
  unfold get_hour_streaks
  apply List.map_congr_left
  intro e _
  unfold get_hour_streaks_record longestRun runEndingAtLast
  rw [streakWalk_spec]

/-- C9: a month counts toward the badge streak iff its hours are ≥ 10: on a
single-month record the badge streak is `(1, 1)` when `10 ≤ v` and `(0, 0)`
when `v < 10`; in particular `9.9` hours do not count and `10.0` hours do. -/
theorem badge_streak_threshold (k : Ym) (v : ℚ) :
    (10 ≤ v → get_volunteer_badge_streaks_record ⟨"n", [(k, v)], 0⟩ = (1, 1))
    ∧ (v < 10 → get_volunteer_badge_streaks_record ⟨"n", [(k, v)], 0⟩ = (0, 0))
    ∧ get_volunteer_badge_streaks_record ⟨"n", [(⟨2025, 9⟩, 9.9)], 0⟩ = (0, 0)
    ∧ get_volunteer_badge_streaks_record ⟨"n", [(⟨2025, 9⟩, 10)], 0⟩ = (1, 1) := by
  have hsingle : ∀ (k' : Ym) (v' : ℚ),
      get_volunteer_badge_streaks_record ⟨"n", [(k', v')], 0⟩
        = if 10 ≤ v' then (1, 1) else (0, 0) := by
    intro k' v'
    unfold get_volunteer_badge_streaks_record
    have hks : sortedKeys [(k', v')] = [k'] := rfl
    rw [hks]
    unfold streakWalk
    simp only [List.foldl_cons, List.foldl_nil, streakStep, monthsGet, if_pos rfl]
    by_cases h : (10 : ℚ) ≤ v'
    · rw [if_pos h]
      simp [h]
    · rw [if_neg h]
      simp [h]
  refine ⟨fun h => by rw [hsingle, if_pos h], fun h => by rw [hsingle, if_neg (by linarith)],
    ?_, ?_⟩
  · rw [hsingle]
    norm_num
  · rw [hsingle]
    norm_num

/-- Witness for `badge_streak_threshold`: the threshold hypothesis
discharged at exactly 10 hours. -/
theorem badge_streak_threshold_witness :
    get_volunteer_badge_streaks_record ⟨"n", [(⟨2025, 9⟩, (10 : ℚ))], 0⟩ = (1, 1) :=
  (badge_streak_threshold ⟨2025, 9⟩ 10).1 (by norm_num)

-- The batch orchestrator `add_hours_with_notifications`
-- (util/hours.py lines 164–411).  Side effects towards Slack (DMs, channel
-- posts, home-view refreshes, file writes) are external collaborators and
-- are not part of the state; the crossing events that drive the
-- notifications are collected in an event list instead.

/-- Scope of a reward table: `rewards["monthly"]` or `rewards["cumulative"]`. -/
inductive Scope where
  | monthly
  | cumulative
deriving DecidableEq, Repr

/-- The orchestrator's loop state: the ledger, the directory cache, the
`cache_refreshed` flag, the `successful` and `failed` lists and the crossing
events emitted so far.  `refreshCount` is proof instrumentation only: it
counts the calls to `tidyhq.fresh_cache` (the directory refresh). -/
structure BatchState where
  volunteer_hours : Ledger
  tidyhq_cache : Directory
  cache_refreshed : Bool
  refreshCount : Nat
  successful : List String
  failed : List String
  events : List (String × Scope × ℚ)
deriving DecidableEq, Repr

/-- The body of the per-volunteer loop after identity resolution succeeded
(util/hours.py lines 224–385): capture the pre-update monthly and cumulative
values, run the crossing detector on both tables unless `debt` is set, then
apply the delta via `add_hours` (a `KeyError` there aborts, hence `Option`). -/
def processResolved (monthly cumulative : List ℚ) (volunteer_date : Ym)
    (debt : Bool) (st : BatchState) (cache1 : Directory) (refreshed1 : Bool)
    (rcount1 : Nat) (tid : String) (item : String × ℚ) : Option BatchState :=
  match add_hours tid st.volunteer_hours item.2 volunteer_date cache1 debt with
  | none => none
  | some vh' =>
      some { volunteer_hours := vh'
             tidyhq_cache := cache1
             cache_refreshed := refreshed1
             refreshCount := rcount1
             successful := st.successful ++ [item.1]
             failed := st.failed
             events := st.events
               ++ (if debt then [] else
                    (crossings monthly (get_specific_month tid st.volunteer_hours volunteer_date)
                      item.2).map fun t => (item.1, Scope.monthly, t))
               ++ (if debt then [] else
                    (crossings cumulative (get_total tid st.volunteer_hours)
                      item.2).map fun t => (item.1, Scope.cumulative, t)) }

/-- One iteration of the batch loop (util/hours.py lines 193–385): resolve
the Slack handle; on failure refresh the directory cache once per batch and
retry; an item still unresolved is recorded in `failed` and the loop
continues; a resolved item is processed by `processResolved`. -/
def processItem (freshCache : Directory) (monthly cumulative : List ℚ)
    (volunteer_date : Ym) (debt : Bool) (st : BatchState)
    (item : String × ℚ) : Option BatchState :=
  match map_slack_to_tidyhq st.tidyhq_cache item.1 with
  | some tid =>
      processResolved monthly cumulative volunteer_date debt st
        st.tidyhq_cache st.cache_refreshed st.refreshCount tid item
  | none =>
      if st.cache_refreshed then
        some { st with failed := st.failed ++ [item.1] }
      else
        match map_slack_to_tidyhq freshCache item.1 with
        | some tid =>
            processResolved monthly cumulative volunteer_date debt st
              freshCache true (st.refreshCount + 1) tid item
        | none =>
            some { st with tidyhq_cache := freshCache, cache_refreshed := true,
                           refreshCount := st.refreshCount + 1,
                           failed := st.failed ++ [item.1] }

/-- The batch loop `for volunteer in changes` of
`add_hours_with_notifications`; `changes` is the Slack-handle → delta
mapping in iteration order. -/
def add_hours_with_notifications (freshCache : Directory)
    (monthly cumulative : List ℚ) (volunteer_date : Ym) (debt : Bool) :
    List (String × ℚ) → BatchState → Option BatchState
  | [], st => some st
  | item :: rest, st =>
      match processItem freshCache monthly cumulative volunteer_date debt st item with
      | none => none
      | some st' =>
          add_hours_with_notifications freshCache monthly cumulative
            volunteer_date debt rest st'

theorem processResolved_shape {m c : List ℚ} {vd : Ym} {dbt : Bool}
    {st : BatchState} {cache1 : Directory} {refreshed1 : Bool} {rcount1 : Nat}
    {tid : String} {item : String × ℚ} {st' : BatchState}
    (h : processResolved m c vd dbt st cache1 refreshed1 rcount1 tid item = some st') :
    st'.successful = st.successful ++ [item.1] ∧ st'.failed = st.failed
    ∧ st'.tidyhq_cache = cache1 ∧ st'.cache_refreshed = refreshed1
    ∧ st'.refreshCount = rcount1
    ∧ (dbt = true → st'.events = st.events) := by
  unfold processResolved at h
  cases ha : add_hours tid st.volunteer_hours item.2 vd cache1 dbt with
  | none => rw [ha] at h; simp at h
  | some vh' =>
      rw [ha] at h
      simp only [Option.some.injEq] at h
      subst h
      refine ⟨rfl, rfl, rfl, rfl, rfl, fun hd => ?_⟩
      subst hd
      simp

theorem processItem_shape {fc : Directory} {m c : List ℚ} {vd : Ym} {dbt : Bool}
    {st : BatchState} {item : String × ℚ} {st' : BatchState}
    (h : processItem fc m c vd dbt st item = some st') :
    ((st'.successful = st.successful ++ [item.1] ∧ st'.failed = st.failed)
     ∨ (st'.successful = st.successful ∧ st'.failed = st.failed ++ [item.1]
         ∧ st'.volunteer_hours = st.volunteer_hours))
    ∧ (st.cache_refreshed = true →
        st'.tidyhq_cache = st.tidyhq_cache ∧ st'.cache_refreshed = true
        ∧ st'.refreshCount = st.refreshCount)
    ∧ (st.cache_refreshed = false →
        (st'.cache_refreshed = false ∧ st'.refreshCount = st.refreshCount)
        ∨ (st'.cache_refreshed = true ∧ st'.refreshCount = st.refreshCount + 1))
    ∧ (dbt = true → st'.events = st.events) := by
  unfold processItem at h
  cases hr : map_slack_to_tidyhq st.tidyhq_cache item.1 with
  | some tid =>
      rw [hr] at h
      obtain ⟨hs, hf, hc, hcr, hrc, hev⟩ := processResolved_shape h
      refine ⟨Or.inl ⟨hs, hf⟩, ?_, ?_, hev⟩
      · intro ht
        exact ⟨hc, hcr.trans ht, hrc⟩
      · intro hfls
        exact Or.inl ⟨hcr.trans hfls, hrc⟩
  | none =>
      rw [hr] at h
      cases hcr0 : st.cache_refreshed with
      | true =>
          rw [hcr0] at h
          simp only [if_true, Option.some.injEq] at h
          subst h
          refine ⟨Or.inr ⟨rfl, rfl, rfl⟩, ?_, ?_, fun _ => rfl⟩
          · intro ht
            exact ⟨rfl, rfl, rfl⟩
          · intro hfls
            simp at hfls
      | false =>
          rw [hcr0] at h
          simp only [Bool.false_eq_true, if_false] at h
          cases hr2 : map_slack_to_tidyhq fc item.1 with
          | some tid =>
              rw [hr2] at h
              obtain ⟨hs, hf, hc, hcr, hrc, hev⟩ := processResolved_shape h
              refine ⟨Or.inl ⟨hs, hf⟩, ?_, ?_, hev⟩
              · intro ht
                simp at ht
              · intro hfls
                exact Or.inr ⟨hcr, hrc⟩
          | none =>
              rw [hr2] at h
              simp only [Option.some.injEq] at h
              subst h
              refine ⟨Or.inr ⟨rfl, rfl, rfl⟩, ?_, ?_, fun _ => rfl⟩
              · intro ht
                simp at ht
              · intro hfls
                exact Or.inr ⟨rfl, rfl⟩

/-- The refresh budget invariant: at most one directory refresh has
happened, and none before the flag is set. -/
def refreshInv (st : BatchState) : Prop :=
  st.refreshCount ≤ 1 ∧ (st.cache_refreshed = false → st.refreshCount = 0)

theorem batch_refreshInv {fc : Directory} {m c : List ℚ} {vd : Ym} {dbt : Bool} :
    ∀ (changes : List (String × ℚ)) (st st' : BatchState), refreshInv st →
      add_hours_with_notifications fc m c vd dbt changes st = some st' →
      refreshInv st' := by
  intro changes
  induction changes with
  | nil =>
      intro st st' hinv h
      unfold add_hours_with_notifications at h
      simp only [Option.some.injEq] at h
      subst h
      exact hinv
  | cons item rest ih =>
      intro st st' hinv h
      unfold add_hours_with_notifications at h
      cases hpi : processItem fc m c vd dbt st item with
      | none => rw [hpi] at h; simp at h
      | some st1 =>
          rw [hpi] at h
          refine ih st1 st' ?_ h
          obtain ⟨_, hT, hF, _⟩ := processItem_shape hpi
          cases hcr : st.cache_refreshed with
          | true =>
              obtain ⟨_, h1, h2⟩ := hT hcr
              exact ⟨h2 ▸ hinv.1, fun hf => by rw [h1] at hf; cases hf⟩
          | false =>
              have h0 : st.refreshCount = 0 := hinv.2 hcr
              rcases hF hcr with ⟨h1, h2⟩ | ⟨h1, h2⟩
              · exact ⟨by omega, fun _ => by omega⟩
              · refine ⟨by omega, fun hf => ?_⟩
                rw [h1] at hf
                cases hf

/-- C7: the directory cache refresh is attempted at most once per batch
(`refreshCount` counts `tidyhq.fresh_cache` calls, starting from an
unrefreshed state), and once the `cache_refreshed` flag is set an item
never refreshes again: its step leaves the cache and the refresh count
untouched. -/
theorem refresh_at_most_once (fc : Directory) (m c : List ℚ) (vd : Ym)
    (dbt : Bool) (changes : List (String × ℚ)) (vh : Ledger) (dir : Directory)
    (s f : List String) (ev : List (String × Scope × ℚ)) (st' : BatchState) :
    (add_hours_with_notifications fc m c vd dbt changes
        ⟨vh, dir, false, 0, s, f, ev⟩ = some st' → st'.refreshCount ≤ 1)
    ∧ (∀ (st : BatchState) (item : String × ℚ) (st1 : BatchState),
        st.cache_refreshed = true →
        processItem fc m c vd dbt st item = some st1 →
        st1.tidyhq_cache = st.tidyhq_cache ∧ st1.cache_refreshed = true
          ∧ st1.refreshCount = st.refreshCount) := by
  constructor
  · intro h
    exact (batch_refreshInv changes ⟨vh, dir, false, 0, s, f, ev⟩ st'
      ⟨by simp, fun _ => rfl⟩ h).1
  · intro st item st1 ht hpi
    exact (processItem_shape hpi).2.1 ht

/-- Witness for `refresh_at_most_once`: a batch of two unresolvable handles
refreshes the cache exactly once (not twice), and an item arriving after
the refresh leaves cache and count unchanged. -/
theorem refresh_at_most_once_witness :
    (⟨[], ⟨[], []⟩, true, 1, [], ["a", "b"], []⟩ : BatchState).refreshCount ≤ 1 :=
  (refresh_at_most_once ⟨[], []⟩ [] [] ⟨2025, 9⟩ false [("a", 1), ("b", 1)]
    [] ⟨[], []⟩ [] [] [] ⟨[], ⟨[], []⟩, true, 1, [], ["a", "b"], []⟩).1 rfl

/-- C6: with the debt flag true an item emits no crossing events (reward
checks are skipped entirely), and `add_hours` with the debt flag adds the
delta to the record's `debt` field leaving its months mapping unchanged. -/
theorem debt_skips_crossings :
    (∀ (fc : Directory) (m c : List ℚ) (vd : Ym) (st : BatchState)
        (item : String × ℚ) (st' : BatchState),
        processItem fc m c vd true st item = some st' → st'.events = st.events)
    ∧ (∀ (tid : String) (vh : Ledger) (d : ℚ) (p : Ym) (dir : Directory)
        (vh' : Ledger), add_hours tid vh d p dir true = some vh' →
        monthsOf tid vh' = monthsOf tid vh ∧ debtOf tid vh' = debtOf tid vh + d) := by
  constructor
  · intro fc m c vd st item st' h
    exact (processItem_shape h).2.2.2 rfl
  · intro tid vh d p dir vh' h
    unfold add_hours at h
    cases hvl : lookupRecord vh tid with
    | some r =>
        rw [generate_new_of_isSome dir (by simp [hvl])] at h
        rw [hvl] at h
        simp only [if_true, Option.some.injEq] at h
        subst h
        unfold monthsOf debtOf
        rw [lookupRecord_setRecord, hvl]
        exact ⟨rfl, rfl⟩
    | none =>
        unfold generate_new at h
        simp only [hvl, Option.isSome_none, Bool.false_eq_true, if_false] at h
        cases hc : get_contact dir tid with
        | none =>
            rw [hc] at h
            rw [hvl] at h
            simp at h
        | some nm =>
            rw [hc] at h
            rw [lookupRecord_append_of_none hvl] at h
            simp only [lookupRecord, if_pos rfl, if_true, Option.some.injEq] at h
            subst h
            unfold monthsOf debtOf
            rw [lookupRecord_setRecord, hvl]
            simp

/-- Witness for `debt_skips_crossings`: a concrete debt addition of 2 hours
leaves the months mapping unchanged and raises the stored debt by 2. -/
theorem debt_skips_crossings_witness :
    monthsOf "1" [("1", ⟨"A", [(⟨2025, 9⟩, (1 : ℚ))], 0 + 2⟩)]
      = monthsOf "1" [("1", ⟨"A", [(⟨2025, 9⟩, (1 : ℚ))], 0⟩)]
    ∧ debtOf "1" [("1", ⟨"A", [(⟨2025, 9⟩, (1 : ℚ))], 0 + 2⟩)]
      = debtOf "1" [("1", ⟨"A", [(⟨2025, 9⟩, (1 : ℚ))], 0⟩)] + 2 :=
  debt_skips_crossings.2 "1" [("1", ⟨"A", [(⟨2025, 9⟩, (1 : ℚ))], 0⟩)] 2
    ⟨2025, 9⟩ ⟨[], []⟩ [("1", ⟨"A", [(⟨2025, 9⟩, (1 : ℚ))], 0 + 2⟩)] rfl

theorem batch_partition {fc : Directory} {m c : List ℚ} {vd : Ym} {dbt : Bool} :
    ∀ (changes : List (String × ℚ)) (st st' : BatchState),
      add_hours_with_notifications fc m c vd dbt changes st = some st' →
      ∃ s f, st'.successful = st.successful ++ s ∧ st'.failed = st.failed ++ f
        ∧ (s ++ f).Perm (changes.map Prod.fst) := by
  intro changes
  induction changes with
  | nil =>
      intro st st' h
      unfold add_hours_with_notifications at h
      simp only [Option.some.injEq] at h
      subst h
      exact ⟨[], [], by simp, by simp, by simp⟩
  | cons item rest ih =>
      intro st st' h
      unfold add_hours_with_notifications at h
      cases hpi : processItem fc m c vd dbt st item with
      | none => rw [hpi] at h; simp at h
      | some st1 =>
          rw [hpi] at h
          obtain ⟨s', f', hs', hf', hperm⟩ := ih st1 st' h
          rcases (processItem_shape hpi).1 with ⟨h1, h2⟩ | ⟨h1, h2, _⟩
          · refine ⟨item.1 :: s', f', ?_, ?_, ?_⟩
            · rw [hs', h1]
              simp
            · rw [hf', h2]
            · simpa using hperm.cons item.1
          · refine ⟨s', item.1 :: f', ?_, ?_, ?_⟩
            · rw [hs', h1]
            · rw [hf', h2]
              simp
            · simp only [List.map_cons]
              exact List.perm_middle.trans (hperm.cons item.1)

/-- C8: every batch item lands in exactly one of `successful`/`failed`
(together they are a permutation of the submitted handles); a failed item
leaves the ledger untouched while a successful one is recorded; and for the
concrete 3-handle batch with one unresolvable handle the outcome has
exactly 2 successes (ledger mutated) and 1 failure (ledger untouched). -/
theorem batch_partial_failure :
    (∀ (fc : Directory) (m c : List ℚ) (vd : Ym) (dbt : Bool)
        (changes : List (String × ℚ)) (vh : Ledger) (dir : Directory)
        (rf : Bool) (rc : Nat) (ev : List (String × Scope × ℚ)) (st' : BatchState),
        add_hours_with_notifications fc m c vd dbt changes
          ⟨vh, dir, rf, rc, [], [], ev⟩ = some st' →
        (st'.successful ++ st'.failed).Perm (changes.map Prod.fst))
    ∧ (∀ (fc : Directory) (m c : List ℚ) (vd : Ym) (dbt : Bool)
        (st : BatchState) (item : String × ℚ) (st' : BatchState),
        processItem fc m c vd dbt st item = some st' →
        (st'.successful = st.successful ++ [item.1] ∧ st'.failed = st.failed)
        ∨ (st'.successful = st.successful ∧ st'.failed = st.failed ++ [item.1]
            ∧ st'.volunteer_hours = st.volunteer_hours))
    ∧ add_hours_with_notifications
        ⟨[("a", "1"), ("c", "3")], [("1", "A"), ("3", "C")]⟩ [] [] ⟨2025, 9⟩ false
        [("a", 2), ("b", 1), ("c", 3)]
        ⟨[], ⟨[("a", "1"), ("c", "3")], [("1", "A"), ("3", "C")]⟩, false, 0, [], [], []⟩
      = some ⟨[("1", ⟨"A", [(⟨2025, 9⟩, 2)], 0⟩), ("3", ⟨"C", [(⟨2025, 9⟩, 3)], 0⟩)],
          ⟨[("a", "1"), ("c", "3")], [("1", "A"), ("3", "C")]⟩, true, 1,
          ["a", "c"], ["b"], []⟩ := by
  refine ⟨?_, ?_, ?_⟩
  · intro fc m c vd dbt changes vh dir rf rc ev st' h
    obtain ⟨s, f, hs, hf, hperm⟩ := batch_partition changes _ st' h
    simpa [hs, hf] using hperm
  · intro fc m c vd dbt st item st' h
    exact (processItem_shape h).1
  · decide

/-- Witness for `batch_partial_failure`: the partition conclusion at the
concrete 3-handle batch (hypothesis discharged by computation). -/
theorem batch_partial_failure_witness :
    ((["a", "c"] ++ ["b"]) : List String).Perm
      ([("a", (2 : ℚ)), ("b", 1), ("c", 3)].map Prod.fst) :=
  batch_partial_failure.1
    ⟨[("a", "1"), ("c", "3")], [("1", "A"), ("3", "C")]⟩ [] [] ⟨2025, 9⟩ false
    [("a", 2), ("b", 1), ("c", 3)] []
    ⟨[("a", "1"), ("c", "3")], [("1", "A"), ("3", "C")]⟩ false 0 []
    ⟨[("1", ⟨"A", [(⟨2025, 9⟩, 2)], 0⟩), ("3", ⟨"C", [(⟨2025, 9⟩, 3)], 0⟩)],
      ⟨[("a", "1"), ("c", "3")], [("1", "A"), ("3", "C")]⟩, true, 1,
      ["a", "c"], ["b"], []⟩ (by decide)

-- `get_overall_statistics` (util/hours.py lines 414–462).

/-- Round-half-to-even on an exact rational, the idealised semantics of
Python's bankers-rounding `round`. -/
def roundHalfEven (q : ℚ) : ℤ :=
  if q - ⌊q⌋ < 1 / 2 then ⌊q⌋
  else if 1 / 2 < q - ⌊q⌋ then ⌊q⌋ + 1
  else if ⌊q⌋ % 2 = 0 then ⌊q⌋ else ⌊q⌋ + 1

/-- Python's `round(x, 1)`. -/
def round1 (q : ℚ) : ℚ :=
  (roundHalfEven (q * 10) : ℚ) / 10

/-- The dictionary returned by `get_overall_statistics`. -/
structure Stats where
  total_hours : ℚ
  total_volunteers : Nat
  average_hours_per_volunteer : ℚ
  average_hours_per_volunteer_no_admin : ℚ
  hours_by_month : List (Ym × ℚ)
deriving DecidableEq, Repr

/-- The inner `for month_str, hours_in_month in months` loop: add every
month of one volunteer into the running `hours_by_month` mapping. -/
def addMonths (bm : List (Ym × ℚ)) (ms : List (Ym × ℚ)) : List (Ym × ℚ) :=
  ms.foldl (fun acc kv => monthsAdd acc kv.1 kv.2) bm

/-- The `for tidyhq_id, volunteer_data in volunteer_hours` loop of
`get_overall_statistics`: accumulates
`(total_hours, total_admin_hours, admin_count, hours_by_month)`.
`admin` is the external `tidyhq.check_for_groups` classification. -/
def statsFold (admin : String → Bool) (vh : Ledger) :
    ℚ × ℚ × Nat × List (Ym × ℚ) :=
  vh.foldl
    (fun acc e =>
      match acc with
      | (totalHours, adminHours, adminCnt, byMonth) =>
          if admin e.1 then
            (totalHours + monthsTotal e.2.months,
             adminHours + monthsTotal e.2.months, adminCnt + 1,
             addMonths byMonth e.2.months)
          else
            (totalHours + monthsTotal e.2.months, adminHours, adminCnt,
             addMonths byMonth e.2.months))
    (0, 0, 0, [])

instance : DecidableRel fun (a b : Ym × ℚ) => ymLe b.1 a.1 :=
  fun a b => inferInstanceAs (Decidable (ymLe b.1 a.1))

/-- `get_overall_statistics`: the two averages divide by the volunteer
count and by the non-admin volunteer count (lines 448–449 and 458–459)
with no guard; a zero divisor is a `ZeroDivisionError` in Python,
modelled as `none`.  The first division is evaluated before the second,
matching the order in the source. -/
def get_overall_statistics (vh : Ledger) (admin : String → Bool) : Option Stats :=
  if vh.length = 0 then none
  else if ((vh.length : ℤ) - ((statsFold admin vh).2.2.1 : ℤ)) = 0 then none
  else
    some
      { total_hours := (statsFold admin vh).1
        total_volunteers := vh.length
        average_hours_per_volunteer :=
          round1 ((statsFold admin vh).1 / (vh.length : ℚ))
        average_hours_per_volunteer_no_admin :=
          round1 (((statsFold admin vh).1 - (statsFold admin vh).2.1)
            / ((((vh.length : ℤ) - ((statsFold admin vh).2.2.1 : ℤ)) : ℤ) : ℚ))
        hours_by_month :=
          List.insertionSort (fun a b => ymLe b.1 a.1) (statsFold admin vh).2.2.2 }

/-- The number of admin-classified volunteers in the ledger. -/
def adminCount (admin : String → Bool) : Ledger → Nat
  | [] => 0
  | e :: rest => (if admin e.1 then 1 else 0) + adminCount admin rest

theorem statsFold_count_aux (admin : String → Bool) :
    ∀ (vh : Ledger) (acc : ℚ × ℚ × Nat × List (Ym × ℚ)),
      (List.foldl
        (fun acc e =>
          match acc with
          | (totalHours, adminHours, adminCnt, byMonth) =>
              if admin e.1 then
                (totalHours + monthsTotal e.2.months,
                 adminHours + monthsTotal e.2.months, adminCnt + 1,
                 addMonths byMonth e.2.months)
              else
                (totalHours + monthsTotal e.2.months, adminHours, adminCnt,
                 addMonths byMonth e.2.months)) acc vh).2.2.1
      = acc.2.2.1 + adminCount admin vh := by
  intro vh
  induction vh with
  | nil => intro acc; simp [adminCount]
  | cons e rest ih =>
      intro acc
      obtain ⟨t, a, cnt, bm⟩ := acc
      by_cases he : admin e.1
      · simp [List.foldl_cons, he, ih, adminCount]
        try omega
      · simp [List.foldl_cons, he, ih, adminCount]
        try omega

theorem statsFold_count (admin : String → Bool) (vh : Ledger) :
    (statsFold admin vh).2.2.1 = adminCount admin vh := by
  unfold statsFold
  rw [statsFold_count_aux]
  simp

theorem adminCount_le (admin : String → Bool) :
    ∀ vh : Ledger, adminCount admin vh ≤ vh.length := by
  intro vh
  induction vh with
  | nil => simp [adminCount]
  | cons e rest ih =>
      simp only [adminCount, List.length_cons]
      by_cases he : admin e.1
      · rw [if_pos he]
        omega
      · rw [if_neg he]
        omega

theorem adminCount_eq_length_iff (admin : String → Bool) :
    ∀ vh : Ledger, adminCount admin vh = vh.length
      ↔ ∀ e ∈ vh, admin e.1 = true := by
  intro vh
  induction vh with
  | nil => simp [adminCount]
  | cons e rest ih =>
      unfold adminCount
      by_cases he : admin e.1
      · simp only [he, if_true, List.length_cons, List.mem_cons]
        constructor
        · intro h ae hae
          rcases hae with hae | hae
          · rw [hae]; exact he
          · exact (ih.mp (by omega)) ae hae
        · intro h
          have := ih.mpr fun ae hae => h ae (Or.inr hae)
          omega
      · simp only [he, Bool.false_eq_true, if_false, List.length_cons]
        constructor
        · intro h
          have hle := adminCount_le admin rest
          exact absurd h (by omega)
        · intro h
          have : admin e.1 = true := h e (by simp)
          rw [this] at he
          exact absurd rfl he

/-- C10: `get_overall_statistics` divides by the volunteer count and by the
non-admin volunteer count with no guard, so it returns a value exactly when
the ledger is non-empty and at least one volunteer is not admin-classified
(it raises `ZeroDivisionError` on the empty ledger, and also when every
volunteer is admin-classified). -/
theorem overall_statistics_requires_nonadmin (vh : Ledger) (admin : String → Bool) :
    (get_overall_statistics vh admin).isSome
      ↔ vh ≠ [] ∧ ∃ e ∈ vh, admin e.1 = false := by
  unfold get_overall_statistics
  by_cases h0 : vh.length = 0
  · have hnil : vh = [] := List.length_eq_zero.mp h0
    simp [h0, hnil]
  · by_cases h1 : ((vh.length : ℤ) - ((statsFold admin vh).2.2.1 : ℤ)) = 0
    · have hcnt : adminCount admin vh = vh.length := by
        have h2 := h1
        rw [statsFold_count] at h2
        omega
      have hall : ∀ e ∈ vh, admin e.1 = true :=
        (adminCount_eq_length_iff admin vh).mp hcnt
      rw [if_neg h0, if_pos h1]
      simp only [Option.isSome_none, Bool.false_eq_true, false_iff]
      rintro ⟨hne, e, hmem, hfe⟩
      rw [hall e hmem] at hfe
      exact absurd hfe (by simp)
    · rw [if_neg h0, if_neg h1]
      simp only [Option.isSome_some, true_iff]
      refine ⟨fun hnil => h0 (by rw [hnil]; rfl), ?_⟩
      have hcnt : adminCount admin vh ≠ vh.length := by
        intro hcnt
        apply h1
        rw [statsFold_count]
        omega
      have hnotall : ¬ ∀ e ∈ vh, admin e.1 = true :=
        fun hall => hcnt ((adminCount_eq_length_iff admin vh).mpr hall)
      push_neg at hnotall
      simpa using hnotall
